import Mathlib

/-!
Verification of two VOLK 3.1.2 kernels against their specification:

* volk_32fc_x2_dot_prod_32fc.h        (complex dot product, 11 variants)
* volk_32fc_s32f_deinterleave_real_16i.h  (scaled deinterleave to int16, 4 variants)

Modelling conventions (shallow embedding):

* A 32-bit float is modelled as an exact rational; float arithmetic is exact
  rational arithmetic.  Properties that quantify IEEE-754 rounding error are
  outside this model and are settled separately.
* A complex value (lv_32fc_t) is a pair (re, im) of rationals, and a buffer of
  complex samples is a function from the element index to that pair; a C call
  with a pointer and num_points reads indices below num_points only.
* unsigned int arithmetic that can wrap is modelled with an explicit mod 2^32
  (the a_sse3 variant is the one place the source relies on it).
* Rounding to integer (rintf and the SIMD cvt instruction under the default
  rounding mode) is round-to-nearest, ties to even, on rationals.
* The narrowing conversion (int16_t)x of the scalar code is modelled as a wrap
  modulo 2^16 into [-32768, 32767]; the AVX2 pack instruction saturates.
* A SIMD register is modelled at lane granularity: a 4-float NEON register is a
  quadruple of rationals, a 128/256-bit x86 register holding complex pairs is a
  pair/quadruple of complex values, following the lane comments of the source.
-/

namespace Volk

/-- Complex value: the pair (re, im) of exact rationals modelling lv_32fc_t. -/
abbrev Cplx := ℚ × ℚ

/-- Complex addition (componentwise float add in the source). -/
def cadd (x y : Cplx) : Cplx := (x.1 + y.1, x.2 + y.2)

/-- Complex multiplication; the source computes (ac-bd) + (ad+bc)i, either as
written (generic tail, lv_32fc_t operator) or through the moveldup, movehdup,
shuffle, addsub intrinsic sequence whose lane comments state that formula. -/
def cmul (x y : Cplx) : Cplx :=
  (x.1 * y.1 - x.2 * y.2, x.1 * y.2 + x.2 * y.1)

/-- The complex zero: memset of dotProduct to 0, or the zeroed accumulator. -/
def czero : Cplx := (0, 0)

/-- Specification-side exact dot product: sum of cmul over indices below n,
added in index order.  Every variant is compared against this sum. -/
def exactDot (inp tp : ℕ → Cplx) : ℕ → Cplx
  | 0 => czero
  | n + 1 => cadd (exactDot inp tp n) (cmul (inp n) (tp n))

/-- Sum of the complex products of cnt consecutive elements starting at start,
folded to the right; a bookkeeping view of a slice of exactDot. -/
def sumFrom (inp tp : ℕ → Cplx) (start : ℕ) : ℕ → Cplx
  | 0 => czero
  | c + 1 => cadd (cmul (inp start) (tp start)) (sumFrom inp tp (start + 1) c)

/-- Tail loop shared by the AVX and NEON dot variants: starting from the reduced
accumulator acc, repeatedly add the complex product of the next element
(dotProduct += input[i] * taps[i], or result += (*a_ptr++) * (*b_ptr++)). -/
def tailAcc (inp tp : ℕ → Cplx) (acc : Cplx) (start : ℕ) : ℕ → Cplx
  | 0 => acc
  | c + 1 => tailAcc inp tp (cadd acc (cmul (inp start) (tp start))) (start + 1) c

/-- Main loop of volk_32fc_x2_dot_prod_32fc_generic: iteration k adds the
product of element 2k into sum0 and of element 2k+1 into sum1, with the
exact float expressions of lines 80-83 of the source. -/
def genericLoop (inp tp : ℕ → Cplx) : ℕ → Cplx × Cplx
  | 0 => (czero, czero)
  | k + 1 =>
      let s := genericLoop inp tp k
      ((s.1.1 + ((inp (2*k)).1 * (tp (2*k)).1 - (inp (2*k)).2 * (tp (2*k)).2),
        s.1.2 + ((inp (2*k)).1 * (tp (2*k)).2 + (inp (2*k)).2 * (tp (2*k)).1)),
       (s.2.1 + ((inp (2*k+1)).1 * (tp (2*k+1)).1 - (inp (2*k+1)).2 * (tp (2*k+1)).2),
        s.2.2 + ((inp (2*k+1)).1 * (tp (2*k+1)).2 + (inp (2*k+1)).2 * (tp (2*k+1)).1)))

/-- volk_32fc_x2_dot_prod_32fc_generic: n/2 two-element blocks into the two
local accumulators, res = sum0 + sum1, then one extra product if n is odd. -/
def dot_prod_generic (inp tp : ℕ → Cplx) (n : ℕ) : Cplx :=
  let s := genericLoop inp tp (n / 2)
  let res : Cplx := (s.1.1 + s.2.1, s.1.2 + s.2.2)
  if n % 2 = 1 then cadd res (cmul (inp (n - 1)) (tp (n - 1))) else res

/-- Main loop shared by the SSE3 dot variants (aligned and unaligned bodies are
identical except for the load intrinsic, which the memory model does not
distinguish): the 4-float register holds two complex lanes; iteration k adds
the complex products of elements 2k and 2k+1 to the two lanes. -/
def sse3Loop (inp tp : ℕ → Cplx) : ℕ → Cplx × Cplx
  | 0 => (czero, czero)
  | k + 1 =>
      let acc := sse3Loop inp tp k
      (cadd acc.1 (cmul (inp (2*k)) (tp (2*k))),
       cadd acc.2 (cmul (inp (2*k+1)) (tp (2*k+1))))

/-- volk_32fc_x2_dot_prod_32fc_u_sse3: halfPoints = num_points / 2 iterations,
horizontal reduction dotProduct += (lane0 + lane1), then the odd tail. -/
def dot_prod_u_sse3 (inp tp : ℕ → Cplx) (n : ℕ) : Cplx :=
  let acc := sse3Loop inp tp (n / 2)
  let d0 := cadd czero (cadd acc.1 acc.2)
  if n % 2 = 1 then cadd d0 (cmul (inp (n - 1)) (tp (n - 1))) else d0

/-- Iteration count of the aligned SSE3 dot variant: num_bytes = num_points * 8
in 32-bit unsigned arithmetic (hence the mod 2^32), then num_bytes >> 4. -/
def a_sse3_halfPoints (n : ℕ) : ℕ := n * 8 % 2 ^ 32 / 16

/-- volk_32fc_x2_dot_prod_32fc_a_sse3: identical to the unaligned body except
the loop bound a_sse3_halfPoints computed through num_bytes. -/
def dot_prod_a_sse3 (inp tp : ℕ → Cplx) (n : ℕ) : Cplx :=
  let acc := sse3Loop inp tp (a_sse3_halfPoints n)
  let d0 := cadd czero (cadd acc.1 acc.2)
  if n % 2 = 1 then cadd d0 (cmul (inp (n - 1)) (tp (n - 1))) else d0

/-- 256-bit x86 register viewed as 4 complex lanes (the AVX dot loops). -/
structure Cplx4 where
  c0 : Cplx
  c1 : Cplx
  c2 : Cplx
  c3 : Cplx

/-- Zeroed 4-lane complex accumulator (mm256 setzero). -/
def cplx4zero : Cplx4 := ⟨czero, czero, czero, czero⟩

/-- Main loop shared by the AVX dot variants (aligned and unaligned bodies
differ only in the load intrinsic): the 8-float register holds 4 complex
lanes; iteration k adds the complex product of element 4k+j to lane j, the
products formed by the moveldup / movehdup / shuffle / mul / addsub sequence
whose lane comments state exactly the cmul formula. -/
def avxLoop (inp tp : ℕ → Cplx) : ℕ → Cplx4
  | 0 => cplx4zero
  | k + 1 =>
      let acc := avxLoop inp tp k
      ⟨cadd acc.c0 (cmul (inp (4*k)) (tp (4*k))),
       cadd acc.c1 (cmul (inp (4*k+1)) (tp (4*k+1))),
       cadd acc.c2 (cmul (inp (4*k+2)) (tp (4*k+2))),
       cadd acc.c3 (cmul (inp (4*k+3)) (tp (4*k+3)))⟩

/-- Horizontal reduction of the AVX accumulator: dotProduct += (v0+v1+v2+v3),
the sum associated to the left as the C expression is. -/
def cplx4reduce (a : Cplx4) : Cplx :=
  cadd czero (cadd (cadd (cadd a.c0 a.c1) a.c2) a.c3)

/-- volk_32fc_x2_dot_prod_32fc_u_avx: quarterPoints = n/4 iterations, the
horizontal reduction, then the isodd = n & 3 tail products added one by one
starting at index num_points - isodd. -/
def dot_prod_u_avx (inp tp : ℕ → Cplx) (n : ℕ) : Cplx :=
  let acc := avxLoop inp tp (n / 4)
  tailAcc inp tp (cplx4reduce acc) (n - n % 4) (n % 4)

/-- volk_32fc_x2_dot_prod_32fc_a_avx: same body as the unaligned variant with
aligned loads, which the memory model does not distinguish. -/
def dot_prod_a_avx (inp tp : ℕ → Cplx) (n : ℕ) : Cplx :=
  let acc := avxLoop inp tp (n / 4)
  tailAcc inp tp (cplx4reduce acc) (n - n % 4) (n % 4)

/-- Main loop shared by the AVX FMA dot variants: fmaddsub fuses the first
multiply and the addsub of the plain AVX loop; with exact rational arithmetic
each lane receives the same complex product, so the loop body coincides with
the AVX one lane for lane. -/
def avxFmaLoop (inp tp : ℕ → Cplx) : ℕ → Cplx4
  | 0 => cplx4zero
  | k + 1 =>
      let acc := avxFmaLoop inp tp k
      ⟨cadd acc.c0 (cmul (inp (4*k)) (tp (4*k))),
       cadd acc.c1 (cmul (inp (4*k+1)) (tp (4*k+1))),
       cadd acc.c2 (cmul (inp (4*k+2)) (tp (4*k+2))),
       cadd acc.c3 (cmul (inp (4*k+3)) (tp (4*k+3)))⟩

/-- volk_32fc_x2_dot_prod_32fc_u_avx_fma. -/
def dot_prod_u_avx_fma (inp tp : ℕ → Cplx) (n : ℕ) : Cplx :=
  let acc := avxFmaLoop inp tp (n / 4)
  tailAcc inp tp (cplx4reduce acc) (n - n % 4) (n % 4)

/-- volk_32fc_x2_dot_prod_32fc_a_avx_fma. -/
def dot_prod_a_avx_fma (inp tp : ℕ → Cplx) (n : ℕ) : Cplx :=
  let acc := avxFmaLoop inp tp (n / 4)
  tailAcc inp tp (cplx4reduce acc) (n - n % 4) (n % 4)

/-- 128-bit NEON register: 4 float lanes as exact rationals. -/
structure V4 where
  l0 : ℚ
  l1 : ℚ
  l2 : ℚ
  l3 : ℚ

/-- vdupq of 0. -/
def v4zero : V4 := ⟨0, 0, 0, 0⟩

/-- vaddq: lanewise add. -/
def v4add (x y : V4) : V4 := ⟨x.l0 + y.l0, x.l1 + y.l1, x.l2 + y.l2, x.l3 + y.l3⟩

/-- vsubq: lanewise subtract. -/
def v4sub (x y : V4) : V4 := ⟨x.l0 - y.l0, x.l1 - y.l1, x.l2 - y.l2, x.l3 - y.l3⟩

/-- vmulq: lanewise multiply. -/
def v4mul (x y : V4) : V4 := ⟨x.l0 * y.l0, x.l1 * y.l1, x.l2 * y.l2, x.l3 * y.l3⟩

/-- vmlaq a x y = a + x * y lanewise (multiply accumulate). -/
def v4mla (a x y : V4) : V4 :=
  ⟨a.l0 + x.l0 * y.l0, a.l1 + x.l1 * y.l1, a.l2 + x.l2 * y.l2, a.l3 + x.l3 * y.l3⟩

/-- vmlsq a x y = a - x * y lanewise (multiply subtract). -/
def v4mls (a x y : V4) : V4 :=
  ⟨a.l0 - x.l0 * y.l0, a.l1 - x.l1 * y.l1, a.l2 - x.l2 * y.l2, a.l3 - x.l3 * y.l3⟩

/-- First output register of vld2q at element base e: the real parts of the 4
consecutive complex elements e .. e+3. -/
def realsAt (v : ℕ → Cplx) (e : ℕ) : V4 :=
  ⟨(v e).1, (v (e+1)).1, (v (e+2)).1, (v (e+3)).1⟩

/-- Second output register of vld2q at element base e: the imaginary parts. -/
def imagsAt (v : ℕ → Cplx) (e : ℕ) : V4 :=
  ⟨(v e).2, (v (e+1)).2, (v (e+2)).2, (v (e+3)).2⟩

/-- vld4q de-interleaves with stride 4 floats = 2 complex elements: the real
parts of elements e, e+2, e+4, e+6. -/
def reals2At (v : ℕ → Cplx) (e : ℕ) : V4 :=
  ⟨(v e).1, (v (e+2)).1, (v (e+4)).1, (v (e+6)).1⟩

/-- Imaginary counterpart of reals2At. -/
def imags2At (v : ℕ → Cplx) (e : ℕ) : V4 :=
  ⟨(v e).2, (v (e+2)).2, (v (e+4)).2, (v (e+6)).2⟩

/-- vst2q of the pair (reals, imags) followed by the four-term sum
accum_result[0] + accum_result[1] + accum_result[2] + accum_result[3]. -/
def v4reduce (r i : V4) : Cplx :=
  cadd (cadd (cadd (r.l0, i.l0) (r.l1, i.l1)) (r.l2, i.l2)) (r.l3, i.l3)

/-- Main loop of volk_32fc_x2_dot_prod_32fc_neon.  a_ptr walks taps and b_ptr
walks input; iteration k loads elements 4k .. 4k+3 of both, forms the real
part as ar*br - ai*bi and the imaginary part as ar*bi + ai*br lanewise, and
adds both into the (real, imag) accumulator pair. -/
def neonLoop (inp tp : ℕ → Cplx) : ℕ → V4 × V4
  | 0 => (v4zero, v4zero)
  | k + 1 =>
      let acc := neonLoop inp tp k
      let ar := realsAt tp (4*k)
      let ai := imagsAt tp (4*k)
      let br := realsAt inp (4*k)
      let bi := imagsAt inp (4*k)
      let cr := v4sub (v4mul ar br) (v4mul ai bi)
      let ci := v4add (v4mul ar bi) (v4mul ai br)
      (v4add acc.1 cr, v4add acc.2 ci)

/-- volk_32fc_x2_dot_prod_32fc_neon: n/4 main iterations, reduction, then the
tail loop result += (*a_ptr++) * (*b_ptr++); the tail multiplies taps by
input in that order, hence the swapped buffer arguments of tailAcc. -/
def dot_prod_neon (inp tp : ℕ → Cplx) (n : ℕ) : Cplx :=
  let acc := neonLoop inp tp (n / 4)
  tailAcc tp inp (v4reduce acc.1 acc.2) (n / 4 * 4) (n - n / 4 * 4)

/-- Main loop of volk_32fc_x2_dot_prod_32fc_neon_opttests: the same products
assembled with multiply accumulate / subtract: imag = ai*br + ar*bi, real =
ar*br - ai*bi, written in the order of the source. -/
def neonOpttestsLoop (inp tp : ℕ → Cplx) : ℕ → V4 × V4
  | 0 => (v4zero, v4zero)
  | k + 1 =>
      let acc := neonOpttestsLoop inp tp k
      let ar := realsAt tp (4*k)
      let ai := imagsAt tp (4*k)
      let br := realsAt inp (4*k)
      let bi := imagsAt inp (4*k)
      let ti1 := v4mla (v4mul ai br) ar bi
      let ti0 := v4mls (v4mul ar br) ai bi
      (v4add acc.1 ti0, v4add acc.2 ti1)

/-- volk_32fc_x2_dot_prod_32fc_neon_opttests. -/
def dot_prod_neon_opttests (inp tp : ℕ → Cplx) (n : ℕ) : Cplx :=
  let acc := neonOpttestsLoop inp tp (n / 4)
  tailAcc tp inp (v4reduce acc.1 acc.2) (n / 4 * 4) (n - n / 4 * 4)

/-- Main loop of volk_32fc_x2_dot_prod_32fc_neon_optfma: two accumulator pairs;
acc1 collects ar*br (real) and ar*bi (imag), acc2 collects -ai*bi (real,
through vmlsq) and ai*br (imag). -/
def neonOptfmaLoop (inp tp : ℕ → Cplx) : ℕ → (V4 × V4) × (V4 × V4)
  | 0 => ((v4zero, v4zero), (v4zero, v4zero))
  | k + 1 =>
      let acc := neonOptfmaLoop inp tp k
      let ar := realsAt tp (4*k)
      let ai := imagsAt tp (4*k)
      let br := realsAt inp (4*k)
      let bi := imagsAt inp (4*k)
      ((v4mla acc.1.1 ar br, v4mla acc.1.2 ar bi),
       (v4mls acc.2.1 ai bi, v4mla acc.2.2 ai br))

/-- volk_32fc_x2_dot_prod_32fc_neon_optfma: lanewise merge of the two
accumulator pairs, reduction, then the same tail loop. -/
def dot_prod_neon_optfma (inp tp : ℕ → Cplx) (n : ℕ) : Cplx :=
  let acc := neonOptfmaLoop inp tp (n / 4)
  let r := v4add acc.1.1 acc.2.1
  let i := v4add acc.1.2 acc.2.2
  tailAcc tp inp (v4reduce r i) (n / 4 * 4) (n - n / 4 * 4)

/-- Four NEON registers (a float32x4x4_t). -/
structure V4x4 where
  v0 : V4
  v1 : V4
  v2 : V4
  v3 : V4

/-- Main loop of volk_32fc_x2_dot_prod_32fc_neon_optfmaunroll: vld4q loads of 8
complex elements per iteration (even elements in lanes of v0/v1, odd elements
in v2/v3), 8 accumulator registers updated with vmlaq / vmlsq exactly as the
source lines order them. -/
def neonUnrollLoop (inp tp : ℕ → Cplx) : ℕ → V4x4 × V4x4
  | 0 => (⟨v4zero, v4zero, v4zero, v4zero⟩, ⟨v4zero, v4zero, v4zero, v4zero⟩)
  | k + 1 =>
      let acc := neonUnrollLoop inp tp k
      let a0 := reals2At tp (8*k)
      let a1 := imags2At tp (8*k)
      let a2 := reals2At tp (8*k+1)
      let a3 := imags2At tp (8*k+1)
      let b0 := reals2At inp (8*k)
      let b1 := imags2At inp (8*k)
      let b2 := reals2At inp (8*k+1)
      let b3 := imags2At inp (8*k+1)
      (⟨v4mla acc.1.v0 a0 b0, v4mla acc.1.v1 a0 b1,
        v4mla acc.1.v2 a2 b2, v4mla acc.1.v3 a2 b3⟩,
       ⟨v4mls acc.2.v0 a1 b1, v4mla acc.2.v1 a1 b0,
        v4mls acc.2.v2 a3 b3, v4mla acc.2.v3 a3 b2⟩)

/-- volk_32fc_x2_dot_prod_32fc_neon_optfmaunroll: quarter_points = n/8 blocks,
the two-stage lane reduction of the source, then the tail loop from n/8*8. -/
def dot_prod_neon_optfmaunroll (inp tp : ℕ → Cplx) (n : ℕ) : Cplx :=
  let acc := neonUnrollLoop inp tp (n / 8)
  let r1 := v4add acc.1.v0 acc.1.v2
  let i1 := v4add acc.1.v1 acc.1.v3
  let r2 := v4add acc.2.v0 acc.2.v2
  let i2 := v4add acc.2.v1 acc.2.v3
  tailAcc tp inp (v4reduce (v4add r1 r2) (v4add i1 i2)) (n / 8 * 8) (n - n / 8 * 8)

/-- Round to nearest integer, ties to even: the behaviour of rintf and of the
SIMD float-to-int conversions under the default rounding mode. -/
def rne (q : ℚ) : ℤ :=
  let f := ⌊q⌋
  if q - f < 1 / 2 then f
  else if 1 / 2 < q - f then f + 1
  else if f % 2 = 0 then f else f + 1

/-- Narrowing conversion (int16_t)x of an integer value: wrap modulo 2^16 into
the signed range, the truncation the scalar code performs. -/
def wrap16 (z : ℤ) : ℤ := (z + 32768) % 65536 - 32768

/-- Saturation of a 32-bit lane to int16 as performed by the packs
instruction: clamp to [-32768, 32767]. -/
def sat16 (z : ℤ) : ℤ := max (-32768) (min 32767 z)

/-- cvtps lane conversion under the default rounding mode: round to nearest
even; a result outside the int32 range becomes the integer indefinite value
-2^31. -/
def cvt32 (q : ℚ) : ℤ :=
  let z := rne q
  if z < -(2 ^ 31) ∨ 2 ^ 31 - 1 < z then -(2 ^ 31) else z

/-- View of the complex buffer as the interleaved float array the kernels cast
it to: float j is the real part of element j/2 when j is even, else the
imaginary part. -/
def floatAt (v : ℕ → Cplx) (j : ℕ) : ℚ :=
  if j % 2 = 0 then (v (j / 2)).1 else (v (j / 2)).2

/-- Scalar quantization of one sample: (int16_t)rintf(re * scalar), shared by
the generic kernel and every remainder loop. -/
def deintScalar (x : ℚ) (s : ℚ) : ℤ := wrap16 (rne (x * s))

/-- Saturating per-lane quantization of the AVX2 main loop: cvtps then the
saturating pack. -/
def deintSat (x : ℚ) (s : ℚ) : ℤ := sat16 (cvt32 (x * s))

/-- Scalar remainder loop of every deinterleave variant (and the whole generic
variant): starting at element start, cnt iterations each writing
(int16_t)rintf(*ptr++ * scalar) and skipping the imaginary float. -/
def deintTail (v : ℕ → Cplx) (s : ℚ) (start : ℕ) : ℕ → List ℤ
  | 0 => []
  | c + 1 => deintScalar (v start).1 s :: deintTail v s (start + 1) c

/-- volk_32fc_s32f_deinterleave_real_16i_generic: one scalar quantization per
element, in order. -/
def deint_generic (v : ℕ → Cplx) (s : ℚ) (n : ℕ) : List ℤ :=
  deintTail v s 0 n

/-- One iteration of the SSE deinterleave main loop at block k: two 4-float
loads at float offset 8k, shuffle(2,0,2,0) keeping floats 8k, 8k+2, 8k+4,
8k+6 (the four real parts), multiply by the broadcast scalar, then four
scalar (int16_t)rintf conversions from the spilled float buffer. -/
def sseBlock (v : ℕ → Cplx) (s : ℚ) (k : ℕ) : List ℤ :=
  let f := fun j => floatAt v (8*k + j)
  let iValue := [f 0, f 2, f 4, f 6]
  (iValue.map (fun q => q * s)).map (fun q => wrap16 (rne q))

/-- Main loop of the SSE deinterleave variant: blocks 0 .. m-1 appended in
iteration order. -/
def sseMain (v : ℕ → Cplx) (s : ℚ) : ℕ → List ℤ
  | 0 => []
  | k + 1 => sseMain v s k ++ sseBlock v s k

/-- volk_32fc_s32f_deinterleave_real_16i_a_sse: quarterPoints = n/4 blocks,
then the scalar remainder loop from element 4*(n/4). -/
def deint_a_sse (v : ℕ → Cplx) (s : ℚ) (n : ℕ) : List ℤ :=
  sseMain v s (n / 4) ++ deintTail v s (n / 4 * 4) (n - n / 4 * 4)

/-- The packs_epi32(a, a) / permutevar8x32(idx) / extract lane-0 sequence of
the AVX2 main loop: saturate each 32-bit lane to 16 bits and emit them in the
order 0, 1, 4, 5, 2, 3, 6, 7 of the shuffled register (which restores sample
order, see avx2Block). -/
def packsPermute (a : List ℤ) : List ℤ :=
  [sat16 (a.getD 0 0), sat16 (a.getD 1 0), sat16 (a.getD 4 0), sat16 (a.getD 5 0),
   sat16 (a.getD 2 0), sat16 (a.getD 3 0), sat16 (a.getD 6 0), sat16 (a.getD 7 0)]

/-- One iteration of the AVX2 deinterleave main loop at block k: two 8-float
loads at float offset 16k, the cross-lane shuffle(2,0,2,0) collecting the
real parts in the order r0 r1 r4 r5 r2 r3 r6 r7, multiply by the broadcast
scalar, cvtps to int32 lanes, then the pack / permute / extract store. -/
def avx2Block (v : ℕ → Cplx) (s : ℚ) (k : ℕ) : List ℤ :=
  let f := fun j => floatAt v (16*k + j)
  let iValue := [f 0, f 2, f 8, f 10, f 4, f 6, f 12, f 14]
  packsPermute ((iValue.map (fun q => q * s)).map cvt32)

/-- Main loop of the AVX2 deinterleave variants. -/
def avx2Main (v : ℕ → Cplx) (s : ℚ) : ℕ → List ℤ
  | 0 => []
  | k + 1 => avx2Main v s k ++ avx2Block v s k

/-- volk_32fc_s32f_deinterleave_real_16i_a_avx2: eighthPoints = n/8 blocks,
then the scalar remainder loop from element 8*(n/8). -/
def deint_a_avx2 (v : ℕ → Cplx) (s : ℚ) (n : ℕ) : List ℤ :=
  avx2Main v s (n / 8) ++ deintTail v s (n / 8 * 8) (n - n / 8 * 8)

/-- volk_32fc_s32f_deinterleave_real_16i_u_avx2: identical body to the aligned
variant apart from the unaligned load and store intrinsics, which the memory
model does not distinguish. -/
def deint_u_avx2 (v : ℕ → Cplx) (s : ℚ) (n : ℕ) : List ℤ :=
  avx2Main v s (n / 8) ++ deintTail v s (n / 8 * 8) (n - n / 8 * 8)

/-- Write-instrumented generic dot product: the pair res[0] = ..., res[1] = ...
stores the complex result once; when num_points is odd the cleanup line
*result += input[n-1] * taps[n-1] reads the result back and writes it again.
The second component counts the writes to *result. -/
def dot_prod_generic_rw (inp tp : ℕ → Cplx) (n : ℕ) : Cplx × ℕ :=
  let s := genericLoop inp tp (n / 2)
  let res : Cplx := (s.1.1 + s.2.1, s.1.2 + s.2.2)
  if n % 2 = 1 then (cadd res (cmul (inp (n - 1)) (tp (n - 1))), 2) else (res, 1)

/-- Write-instrumented tail loop of the NEON dot variants: every iteration is
one *result += (*a_ptr++) * (*b_ptr++), i.e. one further write to the
caller-visible result. -/
def tailAccW (inp tp : ℕ → Cplx) (acc : Cplx) (w : ℕ) (start : ℕ) : ℕ → Cplx × ℕ
  | 0 => (acc, w)
  | c + 1 =>
      tailAccW inp tp (cadd acc (cmul (inp start) (tp start))) (w + 1) (start + 1) c

/-- Write-instrumented volk_32fc_x2_dot_prod_32fc_neon: one store of the
reduced accumulator, then one read-modify-write per tail element. -/
def dot_prod_neon_rw (inp tp : ℕ → Cplx) (n : ℕ) : Cplx × ℕ :=
  let acc := neonLoop inp tp (n / 4)
  tailAccW tp inp (v4reduce acc.1 acc.2) 1 (n / 4 * 4) (n - n / 4 * 4)

/-- Write-instrumented volk_32fc_x2_dot_prod_32fc_neon_opttests. -/
def dot_prod_neon_opttests_rw (inp tp : ℕ → Cplx) (n : ℕ) : Cplx × ℕ :=
  let acc := neonOpttestsLoop inp tp (n / 4)
  tailAccW tp inp (v4reduce acc.1 acc.2) 1 (n / 4 * 4) (n - n / 4 * 4)

/-- Write-instrumented volk_32fc_x2_dot_prod_32fc_neon_optfma. -/
def dot_prod_neon_optfma_rw (inp tp : ℕ → Cplx) (n : ℕ) : Cplx × ℕ :=
  let acc := neonOptfmaLoop inp tp (n / 4)
  let r := v4add acc.1.1 acc.2.1
  let i := v4add acc.1.2 acc.2.2
  tailAccW tp inp (v4reduce r i) 1 (n / 4 * 4) (n - n / 4 * 4)

/-- Write-instrumented volk_32fc_x2_dot_prod_32fc_neon_optfmaunroll. -/
def dot_prod_neon_optfmaunroll_rw (inp tp : ℕ → Cplx) (n : ℕ) : Cplx × ℕ :=
  let acc := neonUnrollLoop inp tp (n / 8)
  let r1 := v4add acc.1.v0 acc.1.v2
  let i1 := v4add acc.1.v1 acc.1.v3
  let r2 := v4add acc.2.v0 acc.2.v2
  let i2 := v4add acc.2.v1 acc.2.v3
  tailAccW tp inp (v4reduce (v4add r1 r2) (v4add i1 i2)) 1 (n / 8 * 8) (n - n / 8 * 8)

/-- Write-instrumented SSE3 dot variants: both accumulate the whole sum,
including the odd element, in the local variable dotProduct and end with the
single store *result = dotProduct. -/
def dot_prod_u_sse3_rw (inp tp : ℕ → Cplx) (n : ℕ) : Cplx × ℕ :=
  (dot_prod_u_sse3 inp tp n, 1)

/-- Write-instrumented aligned SSE3 dot variant (single final store). -/
def dot_prod_a_sse3_rw (inp tp : ℕ → Cplx) (n : ℕ) : Cplx × ℕ :=
  (dot_prod_a_sse3 inp tp n, 1)

/-- Write-instrumented AVX dot variants: the tail loop accumulates into the
local dotProduct, and *result = dotProduct is the single store. -/
def dot_prod_u_avx_rw (inp tp : ℕ → Cplx) (n : ℕ) : Cplx × ℕ :=
  (dot_prod_u_avx inp tp n, 1)

/-- Write-instrumented aligned AVX dot variant (single final store). -/
def dot_prod_a_avx_rw (inp tp : ℕ → Cplx) (n : ℕ) : Cplx × ℕ :=
  (dot_prod_a_avx inp tp n, 1)

/-- Write-instrumented unaligned AVX FMA dot variant (single final store). -/
def dot_prod_u_avx_fma_rw (inp tp : ℕ → Cplx) (n : ℕ) : Cplx × ℕ :=
  (dot_prod_u_avx_fma inp tp n, 1)

/-- Write-instrumented aligned AVX FMA dot variant (single final store). -/
def dot_prod_a_avx_fma_rw (inp tp : ℕ → Cplx) (n : ℕ) : Cplx × ℕ :=
  (dot_prod_a_avx_fma inp tp n, 1)

/-- Read-instrumented scalar remainder loop of the deinterleave kernels: each
iteration dereferences exactly one input float (the real part); the pointer
skips the imaginary float without reading it.  The second component counts
input floats dereferenced. -/
def deintTailR (v : ℕ → Cplx) (s : ℚ) (start : ℕ) : ℕ → List ℤ × ℕ
  | 0 => ([], 0)
  | c + 1 =>
      let rest := deintTailR v s (start + 1) c
      (deintScalar (v start).1 s :: rest.1, 1 + rest.2)

/-- Read-instrumented SSE deinterleave main loop: each block performs two
4-float loads, dereferencing 8 input floats. -/
def sseMainR (v : ℕ → Cplx) (s : ℚ) : ℕ → List ℤ × ℕ
  | 0 => ([], 0)
  | k + 1 =>
      let prev := sseMainR v s k
      (prev.1 ++ sseBlock v s k, prev.2 + 8)

/-- Read-instrumented AVX2 deinterleave main loop: each block performs two
8-float loads, dereferencing 16 input floats. -/
def avx2MainR (v : ℕ → Cplx) (s : ℚ) : ℕ → List ℤ × ℕ
  | 0 => ([], 0)
  | k + 1 =>
      let prev := avx2MainR v s k
      (prev.1 ++ avx2Block v s k, prev.2 + 16)

/-- Read-instrumented generic deinterleave variant. -/
def deint_generic_rd (v : ℕ → Cplx) (s : ℚ) (n : ℕ) : List ℤ × ℕ :=
  deintTailR v s 0 n

/-- Read-instrumented SSE deinterleave variant. -/
def deint_a_sse_rd (v : ℕ → Cplx) (s : ℚ) (n : ℕ) : List ℤ × ℕ :=
  let m := sseMainR v s (n / 4)
  let t := deintTailR v s (n / 4 * 4) (n - n / 4 * 4)
  (m.1 ++ t.1, m.2 + t.2)

/-- Read-instrumented aligned AVX2 deinterleave variant. -/
def deint_a_avx2_rd (v : ℕ → Cplx) (s : ℚ) (n : ℕ) : List ℤ × ℕ :=
  let m := avx2MainR v s (n / 8)
  let t := deintTailR v s (n / 8 * 8) (n - n / 8 * 8)
  (m.1 ++ t.1, m.2 + t.2)

/-- Read-instrumented unaligned AVX2 deinterleave variant. -/
def deint_u_avx2_rd (v : ℕ → Cplx) (s : ℚ) (n : ℕ) : List ℤ × ℕ :=
  let m := avx2MainR v s (n / 8)
  let t := deintTailR v s (n / 8 * 8) (n - n / 8 * 8)
  (m.1 ++ t.1, m.2 + t.2)

lemma cadd_czero (x : Cplx) : cadd x czero = x := by
  simp [cadd, czero]

lemma czero_cadd (x : Cplx) : cadd czero x = x := by
  simp [cadd, czero]

lemma cadd_assoc (x y z : Cplx) : cadd (cadd x y) z = cadd x (cadd y z) := by
  simp only [cadd, Prod.mk.injEq]
  constructor <;> ring

lemma cmul_comm (x y : Cplx) : cmul x y = cmul y x := by
  simp only [cmul, Prod.mk.injEq]
  constructor <;> ring

lemma tailAcc_eq (inp tp : ℕ → Cplx) :
    ∀ cnt acc start, tailAcc inp tp acc start cnt = cadd acc (sumFrom inp tp start cnt)
  | 0, acc, start => by simp [tailAcc, sumFrom, cadd_czero]
  | c + 1, acc, start => by
      rw [tailAcc, sumFrom, tailAcc_eq inp tp c, cadd_assoc]

lemma exactDot_split (inp tp : ℕ → Cplx) :
    ∀ c a, exactDot inp tp (a + c) = cadd (exactDot inp tp a) (sumFrom inp tp a c)
  | 0, a => by simp [sumFrom, cadd_czero]
  | c + 1, a => by
      have h : a + (c + 1) = (a + 1) + c := by ring
      rw [h, exactDot_split inp tp c (a + 1), sumFrom, show exactDot inp tp (a + 1)
        = cadd (exactDot inp tp a) (cmul (inp a) (tp a)) from rfl, cadd_assoc]

lemma sumFrom_swap (inp tp : ℕ → Cplx) :
    ∀ c start, sumFrom tp inp start c = sumFrom inp tp start c
  | 0, start => rfl
  | c + 1, start => by
      rw [sumFrom, sumFrom, sumFrom_swap inp tp c (start + 1), cmul_comm]

lemma genericLoop_sum (inp tp : ℕ → Cplx) :
    ∀ k, ((genericLoop inp tp k).1.1 + (genericLoop inp tp k).2.1,
          (genericLoop inp tp k).1.2 + (genericLoop inp tp k).2.2)
        = exactDot inp tp (2 * k)
  | 0 => by simp [genericLoop, exactDot, czero]
  | k + 1 => by
      have ih := genericLoop_sum inp tp k
      have h2 : 2 * (k + 1) = 2 * k + 1 + 1 := by ring
      rw [h2, exactDot, exactDot, ← ih]
      simp only [genericLoop, cadd, cmul, Prod.mk.injEq]
      constructor <;> ring

lemma dot_prod_generic_eq (inp tp : ℕ → Cplx) (n : ℕ) :
    dot_prod_generic inp tp n = exactDot inp tp n := by
  unfold dot_prod_generic
  rcases Nat.mod_two_eq_zero_or_one n with h | h
  · have hn : 2 * (n / 2) = n := by omega
    rw [h]
    simpa [hn] using genericLoop_sum inp tp (n / 2)
  · have h1 : n = 2 * (n / 2) + 1 := by omega
    have hsum := genericLoop_sum inp tp (n / 2)
    have hstep : exactDot inp tp (2 * (n / 2) + 1)
        = cadd (exactDot inp tp (2 * (n / 2)))
            (cmul (inp (2 * (n / 2))) (tp (2 * (n / 2)))) := rfl
    rw [if_pos h, show n - 1 = 2 * (n / 2) from by omega]
    conv_rhs => rw [h1]
    rw [hstep, ← hsum]

lemma sse3Loop_sum (inp tp : ℕ → Cplx) :
    ∀ k, cadd czero (cadd (sse3Loop inp tp k).1 (sse3Loop inp tp k).2)
        = exactDot inp tp (2 * k)
  | 0 => by simp [sse3Loop, exactDot, czero, cadd]
  | k + 1 => by
      have ih := sse3Loop_sum inp tp k
      have h2 : 2 * (k + 1) = 2 * k + 1 + 1 := by ring
      rw [h2, exactDot, exactDot, ← ih]
      simp only [sse3Loop, cadd, cmul, czero, Prod.mk.injEq]
      constructor <;> ring

lemma dot_prod_u_sse3_eq (inp tp : ℕ → Cplx) (n : ℕ) :
    dot_prod_u_sse3 inp tp n = exactDot inp tp n := by
  unfold dot_prod_u_sse3
  rcases Nat.mod_two_eq_zero_or_one n with h | h
  · have hn : 2 * (n / 2) = n := by omega
    rw [h]
    simpa [hn] using sse3Loop_sum inp tp (n / 2)
  · have h1 : n = 2 * (n / 2) + 1 := by omega
    have hsum := sse3Loop_sum inp tp (n / 2)
    have hstep : exactDot inp tp (2 * (n / 2) + 1)
        = cadd (exactDot inp tp (2 * (n / 2)))
            (cmul (inp (2 * (n / 2))) (tp (2 * (n / 2)))) := rfl
    rw [if_pos h, show n - 1 = 2 * (n / 2) from by omega]
    conv_rhs => rw [h1]
    rw [hstep, ← hsum]

lemma a_sse3_halfPoints_mod (n : ℕ) :
    a_sse3_halfPoints n = n % 2 ^ 29 / 2 := by
  unfold a_sse3_halfPoints
  have h32 : (2 : ℕ) ^ 32 = 8 * 2 ^ 29 := by norm_num
  have h8 : n * 8 = 8 * n := by ring
  rw [h8, h32, Nat.mul_mod_mul_left]
  have h16 : (16 : ℕ) = 8 * 2 := by norm_num
  rw [h16, Nat.mul_div_mul_left _ _ (by norm_num : (0 : ℕ) < 8)]

lemma a_sse3_halfPoints_iff (n : ℕ) :
    a_sse3_halfPoints n = n / 2 ↔ n < 2 ^ 29 := by
  rw [a_sse3_halfPoints_mod]
  have h29 : (2 : ℕ) ^ 29 = 536870912 := by norm_num
  rw [h29]
  omega

lemma dot_prod_a_sse3_eq (inp tp : ℕ → Cplx) (n : ℕ) (h : n < 2 ^ 29) :
    dot_prod_a_sse3 inp tp n = exactDot inp tp n := by
  have hhp : a_sse3_halfPoints n = n / 2 := (a_sse3_halfPoints_iff n).2 h
  have hu : dot_prod_a_sse3 inp tp n = dot_prod_u_sse3 inp tp n := by
    unfold dot_prod_a_sse3 dot_prod_u_sse3
    rw [hhp]
  rw [hu, dot_prod_u_sse3_eq]

lemma avxLoop_sum (inp tp : ℕ → Cplx) :
    ∀ k, cplx4reduce (avxLoop inp tp k) = exactDot inp tp (4 * k)
  | 0 => by simp [avxLoop, cplx4zero, cplx4reduce, exactDot, czero, cadd]
  | k + 1 => by
      have ih := avxLoop_sum inp tp k
      have h4 : 4 * (k + 1) = 4 * k + 4 := by ring
      rw [h4, exactDot_split inp tp 4 (4 * k), ← ih]
      simp only [avxLoop, cplx4reduce, sumFrom, cadd, cmul, czero, Prod.mk.injEq]
      constructor <;> ring

lemma avxFmaLoop_sum (inp tp : ℕ → Cplx) :
    ∀ k, cplx4reduce (avxFmaLoop inp tp k) = exactDot inp tp (4 * k)
  | 0 => by simp [avxFmaLoop, cplx4zero, cplx4reduce, exactDot, czero, cadd]
  | k + 1 => by
      have ih := avxFmaLoop_sum inp tp k
      have h4 : 4 * (k + 1) = 4 * k + 4 := by ring
      rw [h4, exactDot_split inp tp 4 (4 * k), ← ih]
      simp only [avxFmaLoop, cplx4reduce, sumFrom, cadd, cmul, czero, Prod.mk.injEq]
      constructor <;> ring

lemma dot_prod_u_avx_eq (inp tp : ℕ → Cplx) (n : ℕ) :
    dot_prod_u_avx inp tp n = exactDot inp tp n := by
  unfold dot_prod_u_avx
  rw [tailAcc_eq inp tp, avxLoop_sum]
  rw [show n - n % 4 = 4 * (n / 4) from by omega, ← exactDot_split]
  congr 1
  omega

lemma dot_prod_a_avx_eq (inp tp : ℕ → Cplx) (n : ℕ) :
    dot_prod_a_avx inp tp n = exactDot inp tp n := by
  unfold dot_prod_a_avx
  rw [tailAcc_eq inp tp, avxLoop_sum]
  rw [show n - n % 4 = 4 * (n / 4) from by omega, ← exactDot_split]
  congr 1
  omega

lemma dot_prod_u_avx_fma_eq (inp tp : ℕ → Cplx) (n : ℕ) :
    dot_prod_u_avx_fma inp tp n = exactDot inp tp n := by
  unfold dot_prod_u_avx_fma
  rw [tailAcc_eq inp tp, avxFmaLoop_sum]
  rw [show n - n % 4 = 4 * (n / 4) from by omega, ← exactDot_split]
  congr 1
  omega

lemma dot_prod_a_avx_fma_eq (inp tp : ℕ → Cplx) (n : ℕ) :
    dot_prod_a_avx_fma inp tp n = exactDot inp tp n := by
  unfold dot_prod_a_avx_fma
  rw [tailAcc_eq inp tp, avxFmaLoop_sum]
  rw [show n - n % 4 = 4 * (n / 4) from by omega, ← exactDot_split]
  congr 1
  omega

lemma neonLoop_sum (inp tp : ℕ → Cplx) :
    ∀ k, v4reduce (neonLoop inp tp k).1 (neonLoop inp tp k).2 = exactDot inp tp (4 * k)
  | 0 => by simp [neonLoop, v4zero, v4reduce, exactDot, czero, cadd]
  | k + 1 => by
      have ih := neonLoop_sum inp tp k
      have h4 : 4 * (k + 1) = 4 * k + 4 := by ring
      rw [h4, exactDot_split inp tp 4 (4 * k), ← ih]
      simp only [neonLoop, v4reduce, v4add, v4sub, v4mul, realsAt, imagsAt, sumFrom,
        cadd, cmul, czero, Prod.mk.injEq]
      constructor <;> ring

lemma dot_prod_neon_eq (inp tp : ℕ → Cplx) (n : ℕ) :
    dot_prod_neon inp tp n = exactDot inp tp n := by
  unfold dot_prod_neon
  rw [tailAcc_eq tp inp, sumFrom_swap inp tp, neonLoop_sum,
    show 4 * (n / 4) = n / 4 * 4 from by ring, ← exactDot_split]
  congr 1
  omega

lemma neonOpttestsLoop_sum (inp tp : ℕ → Cplx) :
    ∀ k, v4reduce (neonOpttestsLoop inp tp k).1 (neonOpttestsLoop inp tp k).2
        = exactDot inp tp (4 * k)
  | 0 => by simp [neonOpttestsLoop, v4zero, v4reduce, exactDot, czero, cadd]
  | k + 1 => by
      have ih := neonOpttestsLoop_sum inp tp k
      have h4 : 4 * (k + 1) = 4 * k + 4 := by ring
      rw [h4, exactDot_split inp tp 4 (4 * k), ← ih]
      simp only [neonOpttestsLoop, v4reduce, v4add, v4mla, v4mls, v4mul, realsAt,
        imagsAt, sumFrom, cadd, cmul, czero, Prod.mk.injEq]
      constructor <;> ring

lemma dot_prod_neon_opttests_eq (inp tp : ℕ → Cplx) (n : ℕ) :
    dot_prod_neon_opttests inp tp n = exactDot inp tp n := by
  unfold dot_prod_neon_opttests
  rw [tailAcc_eq tp inp, sumFrom_swap inp tp, neonOpttestsLoop_sum,
    show 4 * (n / 4) = n / 4 * 4 from by ring, ← exactDot_split]
  congr 1
  omega

lemma neonOptfmaLoop_sum (inp tp : ℕ → Cplx) :
    ∀ k, v4reduce (v4add (neonOptfmaLoop inp tp k).1.1 (neonOptfmaLoop inp tp k).2.1)
          (v4add (neonOptfmaLoop inp tp k).1.2 (neonOptfmaLoop inp tp k).2.2)
        = exactDot inp tp (4 * k)
  | 0 => by simp [neonOptfmaLoop, v4zero, v4add, v4reduce, exactDot, czero, cadd]
  | k + 1 => by
      have ih := neonOptfmaLoop_sum inp tp k
      have h4 : 4 * (k + 1) = 4 * k + 4 := by ring
      rw [h4, exactDot_split inp tp 4 (4 * k), ← ih]
      simp only [neonOptfmaLoop, v4reduce, v4add, v4mla, v4mls, v4mul, realsAt,
        imagsAt, sumFrom, cadd, cmul, czero, Prod.mk.injEq]
      constructor <;> ring

lemma dot_prod_neon_optfma_eq (inp tp : ℕ → Cplx) (n : ℕ) :
    dot_prod_neon_optfma inp tp n = exactDot inp tp n := by
  unfold dot_prod_neon_optfma
  rw [tailAcc_eq tp inp, sumFrom_swap inp tp, neonOptfmaLoop_sum,
    show 4 * (n / 4) = n / 4 * 4 from by ring, ← exactDot_split]
  congr 1
  omega

lemma neonUnrollLoop_sum (inp tp : ℕ → Cplx) :
    ∀ k, v4reduce
          (v4add (v4add (neonUnrollLoop inp tp k).1.v0 (neonUnrollLoop inp tp k).1.v2)
                 (v4add (neonUnrollLoop inp tp k).2.v0 (neonUnrollLoop inp tp k).2.v2))
          (v4add (v4add (neonUnrollLoop inp tp k).1.v1 (neonUnrollLoop inp tp k).1.v3)
                 (v4add (neonUnrollLoop inp tp k).2.v1 (neonUnrollLoop inp tp k).2.v3))
        = exactDot inp tp (8 * k)
  | 0 => by simp [neonUnrollLoop, v4zero, v4add, v4reduce, exactDot, czero, cadd]
  | k + 1 => by
      have ih := neonUnrollLoop_sum inp tp k
      have h8 : 8 * (k + 1) = 8 * k + 8 := by ring
      rw [h8, exactDot_split inp tp 8 (8 * k), ← ih]
      simp only [neonUnrollLoop, v4reduce, v4add, v4mla, v4mls, v4mul, reals2At,
        imags2At, sumFrom, cadd, cmul, czero, Prod.mk.injEq]
      constructor <;> ring

lemma dot_prod_neon_optfmaunroll_eq (inp tp : ℕ → Cplx) (n : ℕ) :
    dot_prod_neon_optfmaunroll inp tp n = exactDot inp tp n := by
  unfold dot_prod_neon_optfmaunroll
  rw [tailAcc_eq tp inp, sumFrom_swap inp tp, neonUnrollLoop_sum,
    show 8 * (n / 8) = n / 8 * 8 from by ring, ← exactDot_split]
  congr 1
  omega

/-- The value fits the signed 16-bit range, where wrap and saturation agree. -/
def inRange16 (z : ℤ) : Prop := -32768 ≤ z ∧ z ≤ 32767

lemma deintSat_eq_scalar (x s : ℚ) (h : inRange16 (rne (x * s))) :
    deintSat x s = deintScalar x s := by
  rcases h with ⟨h1, h2⟩
  simp only [deintSat, deintScalar, cvt32, sat16, wrap16]
  rw [if_neg (by omega)]
  omega

lemma floatAt_even (v : ℕ → Cplx) (c : ℕ) : floatAt v (2 * c) = (v c).1 := by
  simp [floatAt, Nat.mul_mod_right, Nat.mul_div_cancel_left]

lemma sseBlock_eq (v : ℕ → Cplx) (s : ℚ) (k : ℕ) :
    sseBlock v s k = [deintScalar (v (4*k)).1 s, deintScalar (v (4*k+1)).1 s,
      deintScalar (v (4*k+2)).1 s, deintScalar (v (4*k+3)).1 s] := by
  unfold sseBlock deintScalar
  simp only [List.map]
  rw [show 8*k+0 = 2*(4*k) from by ring, show 8*k+2 = 2*(4*k+1) from by ring,
      show 8*k+4 = 2*(4*k+2) from by ring, show 8*k+6 = 2*(4*k+3) from by ring,
      floatAt_even, floatAt_even, floatAt_even, floatAt_even]

lemma avx2Block_eq (v : ℕ → Cplx) (s : ℚ) (k : ℕ) :
    avx2Block v s k = [deintSat (v (8*k)).1 s, deintSat (v (8*k+1)).1 s,
      deintSat (v (8*k+2)).1 s, deintSat (v (8*k+3)).1 s,
      deintSat (v (8*k+4)).1 s, deintSat (v (8*k+5)).1 s,
      deintSat (v (8*k+6)).1 s, deintSat (v (8*k+7)).1 s] := by
  unfold avx2Block packsPermute deintSat
  simp only [List.map, List.getD_cons_zero, List.getD_cons_succ]
  rw [show 16*k+0 = 2*(8*k) from by ring, show 16*k+2 = 2*(8*k+1) from by ring,
      show 16*k+8 = 2*(8*k+4) from by ring, show 16*k+10 = 2*(8*k+5) from by ring,
      show 16*k+4 = 2*(8*k+2) from by ring, show 16*k+6 = 2*(8*k+3) from by ring,
      show 16*k+12 = 2*(8*k+6) from by ring, show 16*k+14 = 2*(8*k+7) from by ring,
      floatAt_even, floatAt_even, floatAt_even, floatAt_even,
      floatAt_even, floatAt_even, floatAt_even, floatAt_even]

lemma deintTail_length (v : ℕ → Cplx) (s : ℚ) :
    ∀ cnt start, (deintTail v s start cnt).length = cnt
  | 0, _ => rfl
  | c + 1, start => by simp [deintTail, deintTail_length v s c]

lemma deintTail_append (v : ℕ → Cplx) (s : ℚ) :
    ∀ c1 c2 start, deintTail v s start (c1 + c2)
      = deintTail v s start c1 ++ deintTail v s (start + c1) c2
  | 0, c2, start => by simp [deintTail]
  | c1 + 1, c2, start => by
      have h : c1 + 1 + c2 = (c1 + c2) + 1 := by ring
      rw [h, deintTail, deintTail, deintTail_append v s c1 c2 (start + 1)]
      simp only [List.cons_append]
      rw [show start + 1 + c1 = start + (c1 + 1) from by ring]

lemma deintTail_get (v : ℕ → Cplx) (s : ℚ) :
    ∀ cnt start i, i < cnt →
      (deintTail v s start cnt)[i]? = some (deintScalar (v (start + i)).1 s)
  | 0, _, i, h => absurd h (by omega)
  | c + 1, start, 0, _ => by simp [deintTail]
  | c + 1, start, i + 1, h => by
      rw [deintTail]
      simp only [List.getElem?_cons_succ]
      rw [deintTail_get v s c (start + 1) i (by omega),
          show start + 1 + i = start + (i + 1) from by ring]

lemma sseMain_eq (v : ℕ → Cplx) (s : ℚ) :
    ∀ m, sseMain v s m = deintTail v s 0 (4 * m)
  | 0 => rfl
  | m + 1 => by
      rw [sseMain, sseMain_eq v s m, sseBlock_eq,
          show 4 * (m + 1) = 4 * m + 4 from by ring, deintTail_append v s (4*m) 4 0]
      simp [deintTail]

lemma deint_a_sse_eq_generic (v : ℕ → Cplx) (s : ℚ) (n : ℕ) :
    deint_a_sse v s n = deint_generic v s n := by
  unfold deint_a_sse deint_generic
  rw [sseMain_eq, show n / 4 * 4 = 0 + 4 * (n / 4) from by ring,
      ← deintTail_append]
  congr 1
  omega

lemma avx2Main_length (v : ℕ → Cplx) (s : ℚ) :
    ∀ m, (avx2Main v s m).length = 8 * m
  | 0 => rfl
  | m + 1 => by
      rw [avx2Main, List.length_append, avx2Main_length v s m, avx2Block_eq]
      simp
      omega

lemma avx2Main_get (v : ℕ → Cplx) (s : ℚ) :
    ∀ m i, i < 8 * m → (avx2Main v s m)[i]? = some (deintSat (v i).1 s)
  | 0, i, h => absurd h (by omega)
  | m + 1, i, h => by
      rw [avx2Main]
      by_cases hi : i < 8 * m
      · rw [List.getElem?_append_left (by rw [avx2Main_length]; exact hi),
            avx2Main_get v s m i hi]
      · rw [List.getElem?_append_right (by rw [avx2Main_length]; omega),
            avx2Main_length, avx2Block_eq]
        have hij : i = 8 * m + (i - 8 * m) := by omega
        have hj : i - 8 * m < 8 := by omega
        rw [hij]
        have harith : 8 * m + (i - 8 * m) - 8 * m = i - 8 * m := by omega
        rw [harith]
        set j := i - 8 * m with hjdef
        interval_cases j <;> rfl

lemma avx2Main_eq_of_range (v : ℕ → Cplx) (s : ℚ) :
    ∀ m, (∀ i, i < 8 * m → inRange16 (rne ((v i).1 * s))) →
      avx2Main v s m = deintTail v s 0 (8 * m)
  | 0, _ => rfl
  | m + 1, h => by
      rw [avx2Main, avx2Main_eq_of_range v s m (fun i hi => h i (by omega)),
          avx2Block_eq, show 8 * (m + 1) = 8 * m + 8 from by ring,
          deintTail_append v s (8*m) 8 0,
          deintSat_eq_scalar _ _ (h (8*m) (by omega)),
          deintSat_eq_scalar _ _ (h (8*m+1) (by omega)),
          deintSat_eq_scalar _ _ (h (8*m+2) (by omega)),
          deintSat_eq_scalar _ _ (h (8*m+3) (by omega)),
          deintSat_eq_scalar _ _ (h (8*m+4) (by omega)),
          deintSat_eq_scalar _ _ (h (8*m+5) (by omega)),
          deintSat_eq_scalar _ _ (h (8*m+6) (by omega)),
          deintSat_eq_scalar _ _ (h (8*m+7) (by omega))]
      simp [deintTail]

lemma deint_a_avx2_eq_of_range (v : ℕ → Cplx) (s : ℚ) (n : ℕ)
    (h : ∀ i, i < n → inRange16 (rne ((v i).1 * s))) :
    deint_a_avx2 v s n = deint_generic v s n := by
  unfold deint_a_avx2 deint_generic
  rw [show n / 8 * 8 = 8 * (n / 8) from by ring,
      avx2Main_eq_of_range v s (n / 8) (fun i hi => h i (by omega)),
      show deintTail v s (8 * (n / 8)) (n - 8 * (n / 8))
        = deintTail v s (0 + 8 * (n / 8)) (n - 8 * (n / 8)) from by rw [Nat.zero_add],
      ← deintTail_append]
  congr 1
  omega

lemma deint_u_avx2_eq_a (v : ℕ → Cplx) (s : ℚ) (n : ℕ) :
    deint_u_avx2 v s n = deint_a_avx2 v s n := rfl

lemma deint_a_avx2_get_main (v : ℕ → Cplx) (s : ℚ) (n i : ℕ) (h : i < 8 * (n / 8)) :
    (deint_a_avx2 v s n)[i]? = some (deintSat (v i).1 s) := by
  unfold deint_a_avx2
  rw [List.getElem?_append_left (by rw [avx2Main_length]; exact h),
      avx2Main_get v s (n / 8) i h]

lemma deint_a_avx2_get_tail (v : ℕ → Cplx) (s : ℚ) (n i : ℕ)
    (h1 : 8 * (n / 8) ≤ i) (h2 : i < n) :
    (deint_a_avx2 v s n)[i]? = some (deintScalar (v i).1 s) := by
  unfold deint_a_avx2
  rw [List.getElem?_append_right (by rw [avx2Main_length]; omega), avx2Main_length,
      deintTail_get v s (n - n / 8 * 8) (n / 8 * 8) (i - 8 * (n / 8)) (by omega),
      show n / 8 * 8 + (i - 8 * (n / 8)) = i from by omega]

lemma sseMain_length (v : ℕ → Cplx) (s : ℚ) (m : ℕ) :
    (sseMain v s m).length = 4 * m := by
  rw [sseMain_eq, deintTail_length]

lemma tailAccW_eq (inp tp : ℕ → Cplx) :
    ∀ cnt acc w start, tailAccW inp tp acc w start cnt
      = (tailAcc inp tp acc start cnt, w + cnt)
  | 0, acc, w, start => rfl
  | c + 1, acc, w, start => by
      rw [tailAccW, tailAcc, tailAccW_eq inp tp c]
      simp only [Prod.mk.injEq, true_and]
      omega

lemma deintTailR_eq (v : ℕ → Cplx) (s : ℚ) :
    ∀ cnt start, deintTailR v s start cnt = (deintTail v s start cnt, cnt)
  | 0, _ => rfl
  | c + 1, start => by
      rw [deintTailR, deintTail, deintTailR_eq v s c]
      simp only [Prod.mk.injEq, true_and]
      omega

lemma sseMainR_eq (v : ℕ → Cplx) (s : ℚ) :
    ∀ m, sseMainR v s m = (sseMain v s m, 8 * m)
  | 0 => rfl
  | m + 1 => by
      rw [sseMainR, sseMain, sseMainR_eq v s m]
      simp only [Prod.mk.injEq, true_and]
      omega

lemma avx2MainR_eq (v : ℕ → Cplx) (s : ℚ) :
    ∀ m, avx2MainR v s m = (avx2Main v s m, 16 * m)
  | 0 => rfl
  | m + 1 => by
      rw [avx2MainR, avx2Main, avx2MainR_eq v s m]
      simp only [Prod.mk.injEq, true_and]
      omega

lemma deintTail_congr (v1 v2 : ℕ → Cplx) (s : ℚ) (h : ∀ i, (v1 i).1 = (v2 i).1) :
    ∀ cnt start, deintTail v1 s start cnt = deintTail v2 s start cnt
  | 0, _ => rfl
  | c + 1, start => by
      rw [deintTail, deintTail, deintScalar, deintScalar, h start,
          deintTail_congr v1 v2 s h c (start + 1)]

lemma avx2Main_congr (v1 v2 : ℕ → Cplx) (s : ℚ) (h : ∀ i, (v1 i).1 = (v2 i).1) :
    ∀ m, avx2Main v1 s m = avx2Main v2 s m
  | 0 => rfl
  | m + 1 => by
      rw [avx2Main, avx2Main, avx2Main_congr v1 v2 s h m, avx2Block_eq, avx2Block_eq,
          h (8*m), h (8*m+1), h (8*m+2), h (8*m+3), h (8*m+4), h (8*m+5),
          h (8*m+6), h (8*m+7)]

/-- Constant all-ones test buffer (every element 1 + 0i). -/
def onesBuf : ℕ → Cplx := fun _ => (1, 0)

/-- Constant test buffer whose real parts scale far outside int16 range. -/
def bigBuf : ℕ → Cplx := fun _ => (40000, 0)

lemma exactDot_onesBuf : ∀ m, exactDot onesBuf onesBuf m = ((m : ℚ), 0)
  | 0 => by simp [exactDot, czero]
  | m + 1 => by
      rw [exactDot, exactDot_onesBuf m]
      simp [onesBuf, cadd, cmul]

/-- Extra constant buffer differing from onesBuf only in imaginary parts. -/
def onesImagBuf : ℕ → Cplx := fun _ => (1, 7)

/-- C5: when num_points = 0, every variant of both kernels produces the
identity result - the complex zero (0,0) for each of the 11 dot-product
variants and an empty output for each of the 4 deinterleave variants - and
the result does not depend on the buffers at all (no element dereferenced),
since the equations hold for arbitrary buffer functions. -/
theorem zero_points_identity (inp tp v : ℕ → Cplx) (s : ℚ) :
    dot_prod_generic inp tp 0 = czero ∧
    dot_prod_u_sse3 inp tp 0 = czero ∧
    dot_prod_a_sse3 inp tp 0 = czero ∧
    dot_prod_u_avx inp tp 0 = czero ∧
    dot_prod_a_avx inp tp 0 = czero ∧
    dot_prod_u_avx_fma inp tp 0 = czero ∧
    dot_prod_a_avx_fma inp tp 0 = czero ∧
    dot_prod_neon inp tp 0 = czero ∧
    dot_prod_neon_opttests inp tp 0 = czero ∧
    dot_prod_neon_optfma inp tp 0 = czero ∧
    dot_prod_neon_optfmaunroll inp tp 0 = czero ∧
    deint_generic v s 0 = [] ∧
    deint_a_sse v s 0 = [] ∧
    deint_a_avx2 v s 0 = [] ∧
    deint_u_avx2 v s 0 = [] := by
  refine ⟨?_, ?_, ?_, ?_, ?_, ?_, ?_, ?_, ?_, ?_, ?_, rfl, rfl, rfl, rfl⟩
  · rw [dot_prod_generic_eq]; rfl
  · rw [dot_prod_u_sse3_eq]; rfl
  · rw [dot_prod_a_sse3_eq inp tp 0 (by norm_num)]; rfl
  · rw [dot_prod_u_avx_eq]; rfl
  · rw [dot_prod_a_avx_eq]; rfl
  · rw [dot_prod_u_avx_fma_eq]; rfl
  · rw [dot_prod_a_avx_fma_eq]; rfl
  · rw [dot_prod_neon_eq]; rfl
  · rw [dot_prod_neon_opttests_eq]; rfl
  · rw [dot_prod_neon_optfma_eq]; rfl
  · rw [dot_prod_neon_optfmaunroll_eq]; rfl

/-- C3: for num_points = 0 and num_points = 1 every dot-product variant
produces a result equal to the generic variant, and for num_points = 1 that
result is exactly the single complex product input[0] * taps[0] under the
formula (ac - bd) + (ad + bc)i; in the exact model no rounding can occur, so
value equality coincides with bitwise equality of the written floats. -/
theorem dot_prod_small_length_exact (inp tp : ℕ → Cplx) :
    dot_prod_u_sse3 inp tp 0 = dot_prod_generic inp tp 0 ∧
    dot_prod_a_sse3 inp tp 0 = dot_prod_generic inp tp 0 ∧
    dot_prod_u_avx inp tp 0 = dot_prod_generic inp tp 0 ∧
    dot_prod_a_avx inp tp 0 = dot_prod_generic inp tp 0 ∧
    dot_prod_u_avx_fma inp tp 0 = dot_prod_generic inp tp 0 ∧
    dot_prod_a_avx_fma inp tp 0 = dot_prod_generic inp tp 0 ∧
    dot_prod_neon inp tp 0 = dot_prod_generic inp tp 0 ∧
    dot_prod_neon_opttests inp tp 0 = dot_prod_generic inp tp 0 ∧
    dot_prod_neon_optfma inp tp 0 = dot_prod_generic inp tp 0 ∧
    dot_prod_neon_optfmaunroll inp tp 0 = dot_prod_generic inp tp 0 ∧
    dot_prod_u_sse3 inp tp 1 = dot_prod_generic inp tp 1 ∧
    dot_prod_a_sse3 inp tp 1 = dot_prod_generic inp tp 1 ∧
    dot_prod_u_avx inp tp 1 = dot_prod_generic inp tp 1 ∧
    dot_prod_a_avx inp tp 1 = dot_prod_generic inp tp 1 ∧
    dot_prod_u_avx_fma inp tp 1 = dot_prod_generic inp tp 1 ∧
    dot_prod_a_avx_fma inp tp 1 = dot_prod_generic inp tp 1 ∧
    dot_prod_neon inp tp 1 = dot_prod_generic inp tp 1 ∧
    dot_prod_neon_opttests inp tp 1 = dot_prod_generic inp tp 1 ∧
    dot_prod_neon_optfma inp tp 1 = dot_prod_generic inp tp 1 ∧
    dot_prod_neon_optfmaunroll inp tp 1 = dot_prod_generic inp tp 1 ∧
    dot_prod_generic inp tp 1 = cmul (inp 0) (tp 0) := by
  refine ⟨?_, ?_, ?_, ?_, ?_, ?_, ?_, ?_, ?_, ?_,
         ?_, ?_, ?_, ?_, ?_, ?_, ?_, ?_, ?_, ?_, ?_⟩
  · rw [dot_prod_u_sse3_eq, dot_prod_generic_eq]
  · rw [dot_prod_a_sse3_eq inp tp 0 (by norm_num), dot_prod_generic_eq]
  · rw [dot_prod_u_avx_eq, dot_prod_generic_eq]
  · rw [dot_prod_a_avx_eq, dot_prod_generic_eq]
  · rw [dot_prod_u_avx_fma_eq, dot_prod_generic_eq]
  · rw [dot_prod_a_avx_fma_eq, dot_prod_generic_eq]
  · rw [dot_prod_neon_eq, dot_prod_generic_eq]
  · rw [dot_prod_neon_opttests_eq, dot_prod_generic_eq]
  · rw [dot_prod_neon_optfma_eq, dot_prod_generic_eq]
  · rw [dot_prod_neon_optfmaunroll_eq, dot_prod_generic_eq]
  · rw [dot_prod_u_sse3_eq, dot_prod_generic_eq]
  · rw [dot_prod_a_sse3_eq inp tp 1 (by norm_num), dot_prod_generic_eq]
  · rw [dot_prod_u_avx_eq, dot_prod_generic_eq]
  · rw [dot_prod_a_avx_eq, dot_prod_generic_eq]
  · rw [dot_prod_u_avx_fma_eq, dot_prod_generic_eq]
  · rw [dot_prod_a_avx_fma_eq, dot_prod_generic_eq]
  · rw [dot_prod_neon_eq, dot_prod_generic_eq]
  · rw [dot_prod_neon_opttests_eq, dot_prod_generic_eq]
  · rw [dot_prod_neon_optfma_eq, dot_prod_generic_eq]
  · rw [dot_prod_neon_optfmaunroll_eq, dot_prod_generic_eq]
  · rw [dot_prod_generic_eq]
    simp [exactDot, czero_cadd]

/-- C6: for every index i below num_points the generic deinterleave variant
writes output element i equal to the real part of complexVector[i] multiplied
by the scalar, rounded to nearest with ties to even (rne), then narrowed to a
16-bit signed integer (wrap16, the wrapping narrowing conversion). -/
theorem deint_generic_elementwise (v : ℕ → Cplx) (s : ℚ) (n i : ℕ) (h : i < n) :
    (deint_generic v s n)[i]? = some (wrap16 (rne ((v i).1 * s))) := by
  unfold deint_generic
  rw [deintTail_get v s n 0 i h, Nat.zero_add]
  rfl

/-- Witness for deint_generic_elementwise at n = 1, i = 0. -/
theorem deint_generic_elementwise_witness :
    0 < 1 ∧ (deint_generic onesBuf 1 1)[0]? = some (wrap16 (rne ((onesBuf 0).1 * 1))) :=
  ⟨by decide, deint_generic_elementwise onesBuf 1 1 0 (by decide)⟩

/-- C9: each deinterleave variant depends only on the real components of the
input: two buffers with identical real parts (and arbitrary imaginary parts)
produce identical outputs for every scalar and num_points. -/
theorem deint_imag_independent (v1 v2 : ℕ → Cplx) (s : ℚ) (n : ℕ)
    (h : ∀ i, (v1 i).1 = (v2 i).1) :
    deint_generic v1 s n = deint_generic v2 s n ∧
    deint_a_sse v1 s n = deint_a_sse v2 s n ∧
    deint_a_avx2 v1 s n = deint_a_avx2 v2 s n ∧
    deint_u_avx2 v1 s n = deint_u_avx2 v2 s n := by
  refine ⟨deintTail_congr v1 v2 s h n 0, ?_, ?_, ?_⟩
  · unfold deint_a_sse
    rw [sseMain_eq, sseMain_eq, deintTail_congr v1 v2 s h, deintTail_congr v1 v2 s h]
  · unfold deint_a_avx2
    rw [avx2Main_congr v1 v2 s h, deintTail_congr v1 v2 s h]
  · unfold deint_u_avx2
    rw [avx2Main_congr v1 v2 s h, deintTail_congr v1 v2 s h]

/-- Witness for deint_imag_independent: onesBuf and onesImagBuf share real
parts and give identical generic outputs at scalar 2, n = 5. -/
theorem deint_imag_independent_witness :
    (∀ i, (onesBuf i).1 = (onesImagBuf i).1) ∧
    deint_generic onesBuf 2 5 = deint_generic onesImagBuf 2 5 :=
  ⟨fun _ => rfl, (deint_imag_independent onesBuf onesImagBuf 2 5 (fun _ => rfl)).1⟩

/-- C10: the aligned SSE3 dot main-loop count is num_points * 8 mod 2^32,
shifted right by 4 (the definition a_sse3_halfPoints); it equals the
num_points / 2 count of the unaligned variant exactly when
num_points < 2^29, and below that bound the two variants coincide on all
inputs. -/
theorem a_sse3_loop_count_iff (n : ℕ) :
    (a_sse3_halfPoints n = n / 2 ↔ n < 2 ^ 29) ∧
    (n < 2 ^ 29 → ∀ inp tp : ℕ → Cplx,
      dot_prod_a_sse3 inp tp n = dot_prod_u_sse3 inp tp n) := by
  refine ⟨a_sse3_halfPoints_iff n, fun h inp tp => ?_⟩
  unfold dot_prod_a_sse3 dot_prod_u_sse3
  rw [(a_sse3_halfPoints_iff n).2 h]

/-- Witness for a_sse3_loop_count_iff at n = 2 on concrete buffers. -/
theorem a_sse3_loop_count_iff_witness :
    (a_sse3_halfPoints 2 = 2 / 2 ↔ 2 < 2 ^ 29) ∧
    dot_prod_a_sse3 onesBuf onesBuf 2 = dot_prod_u_sse3 onesBuf onesBuf 2 :=
  ⟨(a_sse3_loop_count_iff 2).1, (a_sse3_loop_count_iff 2).2 (by norm_num) onesBuf onesBuf⟩

lemma rne_intCast (z : ℤ) : rne ((z : ℚ)) = z := by
  unfold rne
  rw [Int.floor_intCast]
  simp

/-- C1 (amended): the SSE aligned deinterleave variant produces outputs
identical to the generic reference for every buffer, scale and num_points;
the AVX2 variants agree with the generic whenever every rounded scaled real
part fits the signed 16-bit range, the region where the saturating pack of
AVX2 and the wrapping narrowing of the generic coincide. -/
theorem deinterleave_overflow_policy (v : ℕ → Cplx) (s : ℚ) (n : ℕ) :
    deint_a_sse v s n = deint_generic v s n ∧
    ((∀ i, i < n → inRange16 (rne ((v i).1 * s))) →
      deint_a_avx2 v s n = deint_generic v s n ∧
      deint_u_avx2 v s n = deint_generic v s n) :=
  ⟨deint_a_sse_eq_generic v s n, fun h =>
    ⟨deint_a_avx2_eq_of_range v s n h, by
      rw [deint_u_avx2_eq_a]
      exact deint_a_avx2_eq_of_range v s n h⟩⟩

/-- Witness for deinterleave_overflow_policy on an in-range buffer. -/
theorem deinterleave_overflow_policy_witness :
    (∀ i, i < 8 → inRange16 (rne ((onesBuf i).1 * 1))) ∧
    deint_a_avx2 onesBuf 1 8 = deint_generic onesBuf 1 8 :=
  ⟨fun i _ => by
      show inRange16 (rne ((1 : ℚ) * 1))
      rw [show ((1 : ℚ) * 1) = ((1 : ℤ) : ℚ) from by norm_num, rne_intCast]
      exact ⟨by norm_num, by norm_num⟩,
   ((deinterleave_overflow_policy onesBuf 1 8).2 (fun i _ => by
      show inRange16 (rne ((1 : ℚ) * 1))
      rw [show ((1 : ℚ) * 1) = ((1 : ℤ) : ℚ) from by norm_num, rne_intCast]
      exact ⟨by norm_num, by norm_num⟩)).1⟩

/-- Counterexample to C1 as stated: on a buffer of elements 40000 + 0i with
scale 1 and num_points 8, the aligned AVX2 variant saturates each output to
32767 while the generic wraps to -25536, so the outputs differ. -/
theorem deinterleave_avx2_saturation_cex :
    deint_a_avx2 bigBuf 1 8 ≠ deint_generic bigBuf 1 8 := by
  intro heq
  have h1 := deint_a_avx2_get_main bigBuf 1 8 0 (by norm_num)
  have h2 := deint_generic_elementwise bigBuf 1 8 0 (by norm_num)
  rw [heq] at h1
  have h3 : some (deintSat (bigBuf 0).1 1) = some (wrap16 (rne ((bigBuf 0).1 * 1))) :=
    h1.symm.trans h2
  have h4 : deintSat (bigBuf 0).1 1 = wrap16 (rne ((bigBuf 0).1 * 1)) :=
    Option.some_injective _ h3
  revert h4
  show deintSat (40000 : ℚ) 1 = wrap16 (rne ((40000 : ℚ) * 1)) → False
  unfold deintSat cvt32 sat16 wrap16
  rw [show ((40000 : ℚ) * 1) = ((40000 : ℤ) : ℚ) from by norm_num, rne_intCast]
  decide

/-- C4 (amended): write counts to *result per dot variant.  The six SSE3,
AVX and AVX FMA variants accumulate entirely in locals and store exactly
once; the generic variant stores once and, when num_points is odd, updates
*result once more for the cleanup product; the NEON variants store the
reduced accumulator and then update *result once per tail element.  The
instrumented definitions compute the same values as the plain ones. -/
theorem dot_prod_result_write_counts (inp tp : ℕ → Cplx) (n : ℕ) :
    (dot_prod_u_sse3_rw inp tp n).2 = 1 ∧
    (dot_prod_a_sse3_rw inp tp n).2 = 1 ∧
    (dot_prod_u_avx_rw inp tp n).2 = 1 ∧
    (dot_prod_a_avx_rw inp tp n).2 = 1 ∧
    (dot_prod_u_avx_fma_rw inp tp n).2 = 1 ∧
    (dot_prod_a_avx_fma_rw inp tp n).2 = 1 ∧
    (dot_prod_generic_rw inp tp n).2 = 1 + n % 2 ∧
    (dot_prod_generic_rw inp tp n).1 = dot_prod_generic inp tp n ∧
    (dot_prod_neon_rw inp tp n).2 = 1 + (n - n / 4 * 4) ∧
    (dot_prod_neon_rw inp tp n).1 = dot_prod_neon inp tp n ∧
    (dot_prod_neon_opttests_rw inp tp n).2 = 1 + (n - n / 4 * 4) ∧
    (dot_prod_neon_opttests_rw inp tp n).1 = dot_prod_neon_opttests inp tp n ∧
    (dot_prod_neon_optfma_rw inp tp n).2 = 1 + (n - n / 4 * 4) ∧
    (dot_prod_neon_optfma_rw inp tp n).1 = dot_prod_neon_optfma inp tp n ∧
    (dot_prod_neon_optfmaunroll_rw inp tp n).2 = 1 + (n - n / 8 * 8) ∧
    (dot_prod_neon_optfmaunroll_rw inp tp n).1 = dot_prod_neon_optfmaunroll inp tp n := by
  refine ⟨rfl, rfl, rfl, rfl, rfl, rfl, ?_, ?_, ?_, ?_, ?_, ?_, ?_, ?_, ?_, ?_⟩
  · unfold dot_prod_generic_rw
    rcases Nat.mod_two_eq_zero_or_one n with h | h
    · rw [h, if_neg (by omega)]
    · rw [h, if_pos rfl]
  · unfold dot_prod_generic_rw dot_prod_generic
    rcases Nat.mod_two_eq_zero_or_one n with h | h
    · rw [if_neg (by omega), if_neg (by omega)]
    · rw [if_pos h, if_pos h]
  · unfold dot_prod_neon_rw
    rw [tailAccW_eq]
  · unfold dot_prod_neon_rw dot_prod_neon
    rw [tailAccW_eq]
  · unfold dot_prod_neon_opttests_rw
    rw [tailAccW_eq]
  · unfold dot_prod_neon_opttests_rw dot_prod_neon_opttests
    rw [tailAccW_eq]
  · unfold dot_prod_neon_optfma_rw
    rw [tailAccW_eq]
  · unfold dot_prod_neon_optfma_rw dot_prod_neon_optfma
    rw [tailAccW_eq]
  · unfold dot_prod_neon_optfmaunroll_rw
    rw [tailAccW_eq]
  · unfold dot_prod_neon_optfmaunroll_rw dot_prod_neon_optfmaunroll
    rw [tailAccW_eq]

/-- Counterexample to C4 as stated: the generic variant at num_points = 1
writes *result twice (the res[0]/res[1] store, then the cleanup update), not
exactly once. -/
theorem dot_prod_generic_double_write_cex :
    (dot_prod_generic_rw onesBuf onesBuf 1).2 ≠ 1 := by decide

/-- C7 (amended): each deinterleave SIMD variant and each dot SIMD variant
except the aligned SSE3 processes every element exactly once for all
num_points: the SSE deinterleave equals the generic elementwise; the AVX2
deinterleave writes its saturating block formula at every index below
8*(n/8) and the generic scalar formula at every tail index; every dot
variant equals the exact index-ordered sum of all complex products, with the
aligned SSE3 variant restricted to num_points below 2^29 (beyond which its
32-bit num_bytes computation wraps and elements are dropped). -/
theorem all_elements_processed_once (v : ℕ → Cplx) (s : ℚ) (inp tp : ℕ → Cplx)
    (n i : ℕ) :
    deint_a_sse v s n = deint_generic v s n ∧
    (i < 8 * (n / 8) → (deint_a_avx2 v s n)[i]? = some (deintSat (v i).1 s)) ∧
    (8 * (n / 8) ≤ i → i < n →
      (deint_a_avx2 v s n)[i]? = some (deintScalar (v i).1 s)) ∧
    (i < 8 * (n / 8) → (deint_u_avx2 v s n)[i]? = some (deintSat (v i).1 s)) ∧
    (8 * (n / 8) ≤ i → i < n →
      (deint_u_avx2 v s n)[i]? = some (deintScalar (v i).1 s)) ∧
    dot_prod_u_sse3 inp tp n = exactDot inp tp n ∧
    dot_prod_u_avx inp tp n = exactDot inp tp n ∧
    dot_prod_a_avx inp tp n = exactDot inp tp n ∧
    dot_prod_u_avx_fma inp tp n = exactDot inp tp n ∧
    dot_prod_a_avx_fma inp tp n = exactDot inp tp n ∧
    dot_prod_neon inp tp n = exactDot inp tp n ∧
    dot_prod_neon_opttests inp tp n = exactDot inp tp n ∧
    dot_prod_neon_optfma inp tp n = exactDot inp tp n ∧
    dot_prod_neon_optfmaunroll inp tp n = exactDot inp tp n ∧
    (n < 2 ^ 29 → dot_prod_a_sse3 inp tp n = exactDot inp tp n) :=
  ⟨deint_a_sse_eq_generic v s n,
   fun h => deint_a_avx2_get_main v s n i h,
   fun h1 h2 => deint_a_avx2_get_tail v s n i h1 h2,
   fun h => by
     rw [deint_u_avx2_eq_a]
     exact deint_a_avx2_get_main v s n i h,
   fun h1 h2 => by
     rw [deint_u_avx2_eq_a]
     exact deint_a_avx2_get_tail v s n i h1 h2,
   dot_prod_u_sse3_eq inp tp n,
   dot_prod_u_avx_eq inp tp n,
   dot_prod_a_avx_eq inp tp n,
   dot_prod_u_avx_fma_eq inp tp n,
   dot_prod_a_avx_fma_eq inp tp n,
   dot_prod_neon_eq inp tp n,
   dot_prod_neon_opttests_eq inp tp n,
   dot_prod_neon_optfma_eq inp tp n,
   dot_prod_neon_optfmaunroll_eq inp tp n,
   fun h => dot_prod_a_sse3_eq inp tp n h⟩

/-- Witness for all_elements_processed_once at n = 9 (one full AVX2 block
plus one tail element) and n below 2^29 for the aligned SSE3 variant. -/
theorem all_elements_processed_once_witness :
    (3 < 8 * (9 / 8) ∧
      (deint_a_avx2 onesBuf 1 9)[3]? = some (deintSat (onesBuf 3).1 1)) ∧
    (8 * (9 / 8) ≤ 8 ∧ 8 < 9 ∧
      (deint_a_avx2 onesBuf 1 9)[8]? = some (deintScalar (onesBuf 8).1 1)) ∧
    (9 < 2 ^ 29 ∧ dot_prod_a_sse3 onesBuf onesBuf 9 = exactDot onesBuf onesBuf 9) := by
  refine ⟨⟨by norm_num, ?_⟩, ⟨by norm_num, by norm_num, ?_⟩, ⟨by norm_num, ?_⟩⟩
  · exact (all_elements_processed_once onesBuf 1 onesBuf onesBuf 9 3).2.1 (by norm_num)
  · exact (all_elements_processed_once onesBuf 1 onesBuf onesBuf 9 8).2.2.1
      (by norm_num) (by norm_num)
  · exact (all_elements_processed_once onesBuf 1 onesBuf onesBuf 9 0
      ).2.2.2.2.2.2.2.2.2.2.2.2.2.2 (by norm_num)

/-- Counterexample to C7 as stated: at num_points = 2^29 the aligned SSE3
dot variant runs zero main-loop iterations (num_bytes wraps to 0 in 32-bit
arithmetic) and the even tail adds nothing, so on all-ones buffers it
returns 0 instead of the exact sum 2^29: every element is dropped. -/
theorem a_sse3_wrap_drops_elements_cex :
    dot_prod_a_sse3 onesBuf onesBuf (2 ^ 29) ≠ exactDot onesBuf onesBuf (2 ^ 29) := by
  rw [exactDot_onesBuf]
  have h0 : a_sse3_halfPoints (2 ^ 29) = 0 := by
    rw [a_sse3_halfPoints_mod]
    norm_num
  unfold dot_prod_a_sse3
  rw [h0, if_neg (by norm_num)]
  simp [sse3Loop, cadd, czero, Prod.ext_iff]

/-- C8 (amended): every deinterleave variant writes exactly num_points
output elements; the generic variant dereferences exactly num_points input
floats (the real parts only), the SSE variant 8*(n/4) + (n mod 4) floats and
the AVX2 variants 16*(n/8) + (n mod 8) floats, the scalar tails skipping the
imaginary float of each element. -/
theorem deint_write_read_counts (v : ℕ → Cplx) (s : ℚ) (n : ℕ) :
    (deint_generic v s n).length = n ∧
    (deint_a_sse v s n).length = n ∧
    (deint_a_avx2 v s n).length = n ∧
    (deint_u_avx2 v s n).length = n ∧
    deint_generic_rd v s n = (deint_generic v s n, n) ∧
    deint_a_sse_rd v s n = (deint_a_sse v s n, 8 * (n / 4) + (n - n / 4 * 4)) ∧
    deint_a_avx2_rd v s n = (deint_a_avx2 v s n, 16 * (n / 8) + (n - n / 8 * 8)) ∧
    deint_u_avx2_rd v s n = (deint_u_avx2 v s n, 16 * (n / 8) + (n - n / 8 * 8)) := by
  refine ⟨?_, ?_, ?_, ?_, ?_, ?_, ?_, ?_⟩
  · unfold deint_generic
    rw [deintTail_length]
  · unfold deint_a_sse
    rw [List.length_append, sseMain_length, deintTail_length]
    omega
  · unfold deint_a_avx2
    rw [List.length_append, avx2Main_length, deintTail_length]
    omega
  · unfold deint_u_avx2
    rw [List.length_append, avx2Main_length, deintTail_length]
    omega
  · unfold deint_generic_rd deint_generic
    rw [deintTailR_eq]
  · unfold deint_a_sse_rd deint_a_sse
    rw [sseMainR_eq, deintTailR_eq]
  · unfold deint_a_avx2_rd deint_a_avx2
    rw [avx2MainR_eq, deintTailR_eq]
  · unfold deint_u_avx2_rd deint_u_avx2
    rw [avx2MainR_eq, deintTailR_eq]

/-- Counterexample to C8 as stated: the generic variant at num_points = 1
dereferences 1 input float (the real part), not 2 * num_points = 2. -/
theorem deint_generic_read_count_cex :
    (deint_generic_rd onesBuf 1 1).2 ≠ 2 * 1 := by decide

end Volk
